import Mathlib

/-!
Verification of the Mountain Goat VM core (`assembly.js`): a shallow
embedding of the machine, its data types, the assembler, the Program
runner and the REPL, together with theorems about the behaviour of the
embedded code.

JavaScript strings are modelled as lists of characters (`Str`); the
character-level operations (`trim`, `split`, `toUpperCase`, `parseInt`)
are modelled for the ASCII range, which covers every input the language
accepts.  Thrown JavaScript errors are modelled with `Except ErrorKind`.
-/

deriving instance DecidableEq for Except

/-- JavaScript strings, modelled as lists of characters. -/
abbrev Str := List Char

/-- Shorthand to turn a Lean string literal into the `Str` model. -/
def str (s : String) : Str := s.data

/-- The four error message values of `Error.machine` in `assembly.js`,
as an enumeration; `ErrorKind.message` holds the exact message text. -/
inductive ErrorKind where
  | unknownInstruction
  | invalidInputType
  | invalidInstructionFormat
  | inputOutsideRange
deriving DecidableEq

/-- The message strings of `Error.machine`. -/
def ErrorKind.message : ErrorKind → Str
  | .unknownInstruction => str "Unknown instruction"
  | .invalidInputType => str "Invalid input type"
  | .invalidInstructionFormat => str "Invalid instruction format"
  | .inputOutsideRange => str "Input outside valid range"

/-- The ASCII whitespace characters trimmed by JavaScript `String.trim`. -/
def jsWhitespace (c : Char) : Bool :=
  c == ' ' || c == '\t' || c == '\n' || c == '\r' || c == '\x0b' || c == '\x0c'

/-- JavaScript `String.prototype.trim`: strip leading and trailing whitespace. -/
def jsTrim (s : Str) : Str :=
  ((s.dropWhile jsWhitespace).reverse.dropWhile jsWhitespace).reverse

/-- JavaScript `String.prototype.split` with a single-character separator:
splits at every occurrence of the separator, keeping empty fragments
(`"".split(" ") == [""]`, `"a  b".split(" ") == ["a","","b"]`). -/
def jsSplitChar (sep : Char) : Str → List Str
  | [] => [[]]
  | c :: cs =>
    if c = sep then [] :: jsSplitChar sep cs
    else
      match jsSplitChar sep cs with
      | [] => [[c]]
      | t :: ts => (c :: t) :: ts

/-- JavaScript `String.prototype.toUpperCase`, modelled on ASCII letters. -/
def jsToUpper (s : Str) : Str := s.map Char.toUpper

/-- Numeric value of a decimal digit character. -/
def digitVal (c : Char) : Nat := c.toNat - '0'.toNat

/-- Value of a list of decimal digit characters. -/
def decValue (ds : Str) : Int :=
  ds.foldl (fun acc c => acc * 10 + Int.ofNat (digitVal c)) 0

/-- Hexadecimal digit test, as used by `parseInt` radix-16 parsing. -/
def isHexDigit (c : Char) : Bool :=
  c.isDigit || ('a' ≤ c && c ≤ 'f') || ('A' ≤ c && c ≤ 'F')

/-- Numeric value of a hexadecimal digit character. -/
def hexDigitVal (c : Char) : Nat :=
  if c.isDigit then digitVal c
  else if 'a' ≤ c ∧ c ≤ 'f' then c.toNat - 'a'.toNat + 10
  else c.toNat - 'A'.toNat + 10

/-- Value of a list of hexadecimal digit characters. -/
def hexValue (ds : Str) : Int :=
  ds.foldl (fun acc c => acc * 16 + Int.ofNat (hexDigitVal c)) 0

/-- Leading decimal-digit run of `parseInt`; `none` when no digits (NaN). -/
def parseDecDigits (cs : Str) : Option Int :=
  match cs.takeWhile Char.isDigit with
  | [] => none
  | ds => some (decValue ds)

/-- Leading hexadecimal-digit run of `parseInt`; `none` when no digits (NaN). -/
def parseHexDigits (cs : Str) : Option Int :=
  match cs.takeWhile isHexDigit with
  | [] => none
  | ds => some (hexValue ds)

/-- After sign handling, `parseInt` with no radix argument: a `0x`/`0X`
prefix selects radix 16, otherwise radix 10. -/
def jsParseIntCore (cs : Str) : Option Int :=
  match cs with
  | '0' :: 'x' :: rest => parseHexDigits rest
  | '0' :: 'X' :: rest => parseHexDigits rest
  | _ => parseDecDigits cs

/-- JavaScript `parseInt(string)` (no radix argument): skip leading
whitespace, read an optional sign, then the longest digit prefix;
`none` models `NaN`. -/
def jsParseInt (s : Str) : Option Int :=
  let t := s.dropWhile jsWhitespace
  match t with
  | '-' :: rest => (jsParseIntCore rest).map (fun i => -i)
  | '+' :: rest => jsParseIntCore rest
  | _ => jsParseIntCore t

/-- `Machine.WORD_SIZE`: `Uint16Array.BYTES_PER_ELEMENT`. -/
def Machine.WORD_SIZE : Nat := 2

/-- `Machine.WORD_RANGE`: `0x1 << (8 * Uint16Array.BYTES_PER_ELEMENT)`. -/
def Machine.WORD_RANGE : Int := (2 : Int) ^ (8 * Machine.WORD_SIZE)

/-- `Machine.NUM_REGISTERS`. -/
def Machine.NUM_REGISTERS : Nat := 2

/-- `Machine.PC_HALT`. -/
def Machine.PC_HALT : Int := -1

/-- `DataType`: a named, bounded integer operand format.  The source
constructor copies `name`, `min` and `max` from its config (the `width`
entry of some configs is dropped by the constructor, as in the source). -/
structure DataType where
  name : Str
  min : Int
  max : Int
deriving DecidableEq

/-- `DataType.parse`: `parseInt` the text, fail with `invalidInputType`
on NaN, with `inputOutsideRange` when outside `[min, max]`. -/
def DataType.parse (dt : DataType) (code : Str) : Except ErrorKind Int :=
  match jsParseInt code with
  | none => .error .invalidInputType
  | some integer =>
    if integer < dt.min ∨ integer > dt.max then .error .inputOutsideRange
    else .ok integer

/-- The static `DataType.register` instance: a single fixed data type
with `max = Machine.NUM_REGISTERS - 1` (it is not parameterized). -/
def DataType.register : DataType :=
  { name := str "register", min := 0, max := (Machine.NUM_REGISTERS : Int) - 1 }

/-- The static `DataType.address` instance. -/
def DataType.address : DataType :=
  { name := str "address", min := 0, max := Machine.WORD_RANGE }

/-- The static `DataType.word` instance: `max` is `Machine.WORD_RANGE`. -/
def DataType.word : DataType :=
  { name := str "word", min := 0, max := Machine.WORD_RANGE }

/-- `OperandSpec`: one operand of an instruction signature. -/
structure OperandSpec where
  placeholder : Str
  dataType : DataType
deriving DecidableEq

/-- The microcode bodies bound by the enumerated instructions
(`Machine.prototype.setRegister` / `Machine.prototype.addRegisters`),
as a closed enumeration; `Microcode.apply` gives their behaviour. -/
inductive Microcode where
  | setRegister
  | addRegisters
deriving DecidableEq

/-- `AssemblyInstruction`: keyword, operand signature, microcode,
description. -/
structure AssemblyInstruction where
  keyword : Str
  operands : List OperandSpec
  microcode : Microcode
  description : Str
deriving DecidableEq

/-- `AssemblyInstruction.setRegister(registerCount)`: builds the `SET`
instruction.  Note the `registerCount` argument is ignored by the source
body, which always uses the fixed `DataType.register`. -/
def AssemblyInstruction.setRegister (registerCount : Nat) : AssemblyInstruction :=
  { keyword := str "SET",
    operands := [
      { placeholder := str "n", dataType := DataType.register },
      { placeholder := str "i", dataType := DataType.word }],
    microcode := .setRegister,
    description := str "Sets $Rn to integer value i" }

/-- The static `AssemblyInstruction.addRegisters` instance (`ADD`). -/
def AssemblyInstruction.addRegisters : AssemblyInstruction :=
  { keyword := str "ADD",
    operands := [],
    microcode := .addRegisters,
    description := str "Sets $R0 = $R0 + $R1" }

/-- `AssemblyStatement`: one assembled invocation (`instruction = none`
is a no-op/comment statement). -/
structure AssemblyStatement where
  instruction : Option AssemblyInstruction
  operands : List Int
  text : Str
  comment : Option Str
deriving DecidableEq

/-- The `AssemblyStatement` constructor: a present-but-empty comment is
normalized to `none` (`(!!comment && comment.length > 0)`); the `text`
argument is already a string here, so the `text || ""` null-fallback of
the source is the identity. -/
def AssemblyStatement.make (instruction : Option AssemblyInstruction)
    (operands : List Int) (text : Str) (comment : Option Str) : AssemblyStatement :=
  { instruction := instruction, operands := operands, text := text,
    comment := match comment with
      | some c => if 0 < c.length then some c else none
      | none => none }

/-- `AssemblyLanguage`: the registry of instructions.  (The stateless
`#syntax` helper object of the source carries no data and is omitted;
its one method is the standalone `AssemblySyntax.tokenizeLine`.) -/
structure AssemblyLanguage where
  instructionSpecs : List AssemblyInstruction
deriving DecidableEq

/-- `AssemblyLanguage.getInstruction(keyword)`: first registered
instruction whose keyword equals the argument (JavaScript `==`; a
null/undefined keyword compares unequal to every string), else throw
`unknownInstruction`. -/
def AssemblyLanguage.getInstruction (lang : AssemblyLanguage) (keyword : Option Str) :
    Except ErrorKind AssemblyInstruction :=
  match lang.instructionSpecs.find? (fun i => decide (some i.keyword = keyword)) with
  | some instruction => .ok instruction
  | none => .error .unknownInstruction

/-- The result record of `AssemblySyntax.tokenizeLine`. -/
structure TokenizedLine where
  keyword : Option Str
  operands : List Str
  comment : Option Str
deriving DecidableEq

/-- `AssemblySyntax.tokenizeLine(text)`.  `text.indexOf("#")` /
`substring` are modelled by splitting the character list at the first
`'#'`: `takeWhile` is `substring(0, index)` (the whole text when there
is no `'#'`), and the tail after the first `'#'` is
`substring(index + 1)`. -/
def AssemblySyntax.tokenizeLine (text : Str) : TokenizedLine :=
  let comment : Option Str :=
    match text.dropWhile (fun c => c ≠ '#') with
    | [] => none
    | _ :: afterHash => some (jsTrim afterHash)
  let body := text.takeWhile (fun c => c ≠ '#')
  let tokens := (jsSplitChar ' ' (jsTrim body)).filter (fun item => 0 < item.length)
  { keyword := (tokens.head?).map jsToUpper,
    operands := tokens.tail,
    comment := comment }

/-- `Machine` state: registers, the fixed assembly language, the stored
statements and the program counter. -/
structure Machine where
  registers : List Int
  assemblyLanguage : AssemblyLanguage
  statements : List AssemblyStatement
  pc : Int
deriving DecidableEq

/-- The assembly language built by the `Machine` constructor:
`[AssemblyInstruction.setRegister(registers.length), addRegisters]`. -/
def machineLanguage : AssemblyLanguage :=
  { instructionSpecs := [
      AssemblyInstruction.setRegister Machine.NUM_REGISTERS,
      AssemblyInstruction.addRegisters] }

/-- The `Machine` constructor: `NUM_REGISTERS` zeroed registers, no
statements, `pc = 0`. -/
def Machine.new : Machine :=
  { registers := List.replicate Machine.NUM_REGISTERS 0,
    assemblyLanguage := machineLanguage,
    statements := [],
    pc := 0 }

/-- `Machine.append(statements)`: concatenate onto the stored list.
(The `Array.isArray` guard of the source cannot fail in a typed model.) -/
def Machine.append (m : Machine) (statements : List AssemblyStatement) : Machine :=
  { m with statements := m.statements ++ statements }

/-- `Machine.instructionCount`. -/
def Machine.instructionCount (m : Machine) : Nat := m.statements.length

/-- `Machine.halting`: `pc < 0 || pc >= statements.length`. -/
def Machine.halting (m : Machine) : Bool :=
  decide (m.pc < 0 ∨ (m.statements.length : Int) ≤ m.pc)

/-- `Machine.nextInstruction`: `null` when halting, else the statement
at index `pc`. -/
def Machine.nextInstruction (m : Machine) : Option AssemblyStatement :=
  if m.halting then none else m.statements[m.pc.toNat]?

/-- `Machine.setPC(value)`. -/
def Machine.setPC (m : Machine) (value : Int) : Machine :=
  { m with pc := value }

/-- Microcode `Machine.setRegister(rIndex, value)`:
`registers[rIndex] = value`.  For the indices the register data type
validates (`0 <= rIndex < registers.length`) this is `List.set`;
a negative index would be a plain non-index property write in
JavaScript, leaving the register array's elements unchanged. -/
def Machine.setRegister (m : Machine) (rIndex value : Int) : Machine :=
  if rIndex < 0 then m
  else { m with registers := m.registers.set rIndex.toNat value }

/-- Microcode `Machine.addRegisters()`:
`registers[0] = registers[0] + registers[1]` (the register list always
has `NUM_REGISTERS = 2` entries). -/
def Machine.addRegisters (m : Machine) : Machine :=
  { m with registers := m.registers.set 0 (m.registers.getD 0 0 + m.registers.getD 1 0) }

/-- Behaviour of `microcode.apply(machine, operands)` for the two
enumerated microcode bodies.  Statements are validated at assembly
time, so `setRegister` always receives its two operands here. -/
def Microcode.apply : Microcode → Machine → List Int → Machine
  | .setRegister, m, rIndex :: value :: _ => m.setRegister rIndex value
  | .setRegister, m, _ => m
  | .addRegisters, m, _ => m.addRegisters

/-- `Machine.step()`: no-op when halting; otherwise increment `pc` and
run the statement's microcode (if any) on its stored operands. -/
def Machine.step (m : Machine) : Machine :=
  match m.nextInstruction with
  | none => m
  | some next =>
    let m2 := { m with pc := m.pc + 1 }
    match next.instruction with
    | none => m2
    | some instruction => instruction.microcode.apply m2 next.operands

/-- `Machine.stateSummary`: bracketed register values joined by spaces. -/
def Machine.stateSummary (m : Machine) : Str :=
  List.intercalate (str " ")
    (m.registers.map (fun r => (str "[") ++ (toString r).data ++ (str "]")))

/-- Microcode only writes registers: the statement list is preserved. -/
theorem Microcode.apply_statements (mc : Microcode) (m : Machine) (ops : List Int) :
    (mc.apply m ops).statements = m.statements := by
  cases mc with
  | setRegister =>
    cases ops with
    | nil => rfl
    | cons a t =>
      cases t with
      | nil => rfl
      | cons b t2 =>
        simp only [Microcode.apply, Machine.setRegister]
        split <;> rfl
  | addRegisters => rfl

/-- Microcode only writes registers: the program counter is preserved
(no built-in instruction calls `setPC`). -/
theorem Microcode.apply_pc (mc : Microcode) (m : Machine) (ops : List Int) :
    (mc.apply m ops).pc = m.pc := by
  cases mc with
  | setRegister =>
    cases ops with
    | nil => rfl
    | cons a t =>
      cases t with
      | nil => rfl
      | cons b t2 =>
        simp only [Microcode.apply, Machine.setRegister]
        split <;> rfl
  | addRegisters => rfl

/-- Microcode leaves the assembly language untouched. -/
theorem Microcode.apply_language (mc : Microcode) (m : Machine) (ops : List Int) :
    (mc.apply m ops).assemblyLanguage = m.assemblyLanguage := by
  cases mc with
  | setRegister =>
    cases ops with
    | nil => rfl
    | cons a t =>
      cases t with
      | nil => rfl
      | cons b t2 =>
        simp only [Microcode.apply, Machine.setRegister]
        split <;> rfl
  | addRegisters => rfl

/-- `step` never changes the stored statements. -/
theorem Machine.step_statements (m : Machine) : m.step.statements = m.statements := by
  unfold Machine.step
  cases h : m.nextInstruction with
  | none => rfl
  | some next =>
    cases hi : next.instruction with
    | none => simp [hi]
    | some instruction => simp [hi, Microcode.apply_statements]

/-- A non-halting machine has a next instruction. -/
theorem Machine.nextInstruction_isSome (m : Machine) (h : m.halting = false) :
    ∃ s, m.nextInstruction = some s := by
  unfold Machine.nextInstruction
  rw [h]
  simp only [Bool.false_eq_true, if_false]
  have hp : ¬(m.pc < 0 ∨ (m.statements.length : Int) ≤ m.pc) := by
    intro hc
    simp [Machine.halting, hc] at h
  have hlt : m.pc.toNat < m.statements.length := by omega
  exact ⟨m.statements[m.pc.toNat], List.getElem?_eq_getElem hlt⟩

/-- On a non-halting machine, `step` advances `pc` by exactly one. -/
theorem Machine.step_pc (m : Machine) (h : m.halting = false) :
    m.step.pc = m.pc + 1 := by
  obtain ⟨s, hs⟩ := m.nextInstruction_isSome h
  unfold Machine.step
  rw [hs]
  cases hi : s.instruction with
  | none => simp [hi]
  | some instruction => simp [hi, Microcode.apply_pc]

/-- `Machine.run()`: step until halting.  The two built-in microcode
bodies never touch `pc`, so each step advances `pc` by one and the
remaining statement count is a decreasing measure. -/
def Machine.run (m : Machine) : Machine :=
  if h : m.halting = true then m
  else Machine.run m.step
termination_by ((m.statements.length : Int) - m.pc).toNat
decreasing_by
  have hs := m.step_statements
  have hp := m.step_pc (by simp at h; exact h)
  rw [hs, hp]
  have hn : ¬(m.pc < 0 ∨ (m.statements.length : Int) ≤ m.pc) := by
    intro hc
    simp [Machine.halting, hc] at h
  omega

/-- Unfolding `run` on a halting machine: no-op. -/
theorem Machine.run_halt (m : Machine) (h : m.halting = true) : m.run = m := by
  unfold Machine.run
  simp [h]

/-- Unfolding `run` on a non-halting machine: one step, then loop. -/
theorem Machine.run_step (m : Machine) (h : m.halting = false) :
    m.run = m.step.run := by
  conv =>
    lhs
    unfold Machine.run
  simp [h]

/-- Positional operand parsing inside `AssemblyInstruction.execute` /
`assembleStatement`: `operands.map((spec, index) =>
spec.dataType.parse(tokens[index]))`, with the first thrown error
propagating.  (A missing token would be `undefined`, which `parseInt`
turns into NaN, hence `invalidInputType`; the arity check makes this
unreachable.) -/
def parseOperands : List OperandSpec → List Str → Except ErrorKind (List Int)
  | [], _ => .ok []
  | spec :: specs, tok :: toks =>
    match spec.dataType.parse tok with
    | .error e => .error e
    | .ok value =>
      match parseOperands specs toks with
      | .error e => .error e
      | .ok values => .ok (value :: values)
  | _ :: _, [] => .error .invalidInputType

/-- `AssemblyInstruction.execute(tokens, machine)`: arity check, parse
all operands, then run the microcode on the machine. -/
def AssemblyInstruction.execute (instruction : AssemblyInstruction)
    (tokens : List Str) (m : Machine) : Except ErrorKind Machine :=
  if tokens.length ≠ instruction.operands.length then .error .invalidInstructionFormat
  else
    match parseOperands instruction.operands tokens with
    | .error e => .error e
    | .ok values => .ok (instruction.microcode.apply m values)

/-- `Machine.execute(instruction, input)`: delegate to
`instruction.execute(input, this)`. -/
def Machine.execute (m : Machine) (instruction : AssemblyInstruction)
    (input : List Str) : Except ErrorKind Machine :=
  instruction.execute input m

/-- `AssemblyLanguage.assembleStatement(text)`: tokenize, then either a
null result, a no-op statement, or a fully validated statement. -/
def AssemblyLanguage.assembleStatement (lang : AssemblyLanguage) (text : Str) :
    Except ErrorKind (Option AssemblyStatement) :=
  let line := AssemblySyntax.tokenizeLine text
  match line.keyword with
  | none =>
    match line.comment with
    | none => .ok none
    | some _ => .ok (some (AssemblyStatement.make none [] text line.comment))
  | some keyword =>
    match lang.getInstruction (some keyword) with
    | .error e => .error e
    | .ok instruction =>
      if line.operands.length ≠ instruction.operands.length then
        .error .invalidInstructionFormat
      else
        match parseOperands instruction.operands line.operands with
        | .error e => .error e
        | .ok operands =>
          .ok (some (AssemblyStatement.make (some instruction) operands text line.comment))

/-- `Program.tokenize(input)`: throw on a falsy (empty) line, else
uppercase the whole line and split it on single spaces (keeping empty
fragments); the first fragment is the keyword, the rest the tokens. -/
def Program.tokenize (input : Str) : Except ErrorKind (Str × List Str) :=
  match input with
  | [] => .error .unknownInstruction
  | _ =>
    match jsSplitChar ' ' (jsToUpper input) with
    | [] => .error .unknownInstruction
    | keyword :: tokens => .ok (keyword, tokens)

/-- One line of `Program.run`'s loop body: tokenize, resolve the
instruction, execute it against the machine. -/
def Program.stepLine (m : Machine) (line : Str) : Except ErrorKind Machine :=
  match Program.tokenize line with
  | .error e => .error e
  | .ok (keyword, tokens) =>
    match m.assemblyLanguage.getInstruction (some keyword) with
    | .error e => .error e
    | .ok instruction => m.execute instruction tokens

/-- `Program.run()`: run the lines in order inside one try/catch; the
first thrown error appends a single `ERROR:` entry, otherwise a single
`HALT` entry is appended after all lines ran.  Returns the output log
produced and the final machine. -/
def Program.runLines (m : Machine) : List Str → List Str × Machine
  | [] => ([str "HALT"], m)
  | line :: rest =>
    match Program.stepLine m line with
    | .error e => ([(str "ERROR: ") ++ e.message], m)
    | .ok m2 => Program.runLines m2 rest

/-- Running a list of lines without the try/catch wrapper: the machine
after all lines succeed, or the first error. -/
def execLines (m : Machine) : List Str → Except ErrorKind Machine
  | [] => .ok m
  | line :: rest =>
    match Program.stepLine m line with
    | .error e => .error e
    | .ok m2 => execLines m2 rest

/-- The state a `Program` instance holds after its constructor ran. -/
structure ProgramResult where
  machine : Machine
  input : List Str
  output : List Str
deriving DecidableEq

/-- The `Program` constructor: split the text on newlines, create a
fresh machine, and run. -/
def Program.create (text : Str) : ProgramResult :=
  let input := jsSplitChar '\n' text
  let result := Program.runLines Machine.new input
  { machine := result.2, input := input, output := result.1 }

/-- `DataType.helpText`. -/
def DataType.helpText (dt : DataType) : Str :=
  dt.name ++ (str " [") ++ (toString dt.min).data ++ (str " - ") ++
    (toString dt.max).data ++ (str "]")

/-- `OperandSpec.helpText`. -/
def OperandSpec.helpText (spec : OperandSpec) : Str :=
  spec.placeholder ++ (str ": ") ++ spec.dataType.helpText

/-- `AssemblyInstruction.helpText`. -/
def AssemblyInstruction.helpText (i : AssemblyInstruction) : List Str :=
  ((i.keyword ++ (str ": ") ++ i.description) ::
    ((str "Example: ") ++
      List.intercalate (str " ") (i.keyword :: i.operands.map OperandSpec.placeholder)) ::
    []) ++ i.operands.map OperandSpec.helpText

/-- Prefix `"# "` onto the first of an instruction's help lines. -/
def helpLinesFor (i : AssemblyInstruction) : List Str :=
  match i.helpText with
  | [] => []
  | l0 :: rest => ((str "# ") ++ l0) :: rest

/-- `REPL.helpText`. -/
def REPL.helpText (m : Machine) : Str :=
  List.intercalate (str "\n")
    (((str "I am running on a ") ++ (toString (Machine.WORD_SIZE * 8)).data ++
        (str "-bit virtual machine. Instructions:")) ::
      (m.assemblyLanguage.instructionSpecs.map helpLinesFor).flatten)

/-- `REPL.errorMessage(text)`. -/
def REPL.errorMessage (text : Str) : Str :=
  (str "ERROR: ") ++ text ++ (str ".")

/-- The try-block of `REPL.run(input)`: tokenize; `HELP` returns the
help text; otherwise resolve and execute the instruction and return the
register summary together with the updated machine. -/
def REPL.process (m : Machine) (input : Str) : Except ErrorKind (Str × Machine) :=
  match Program.tokenize input with
  | .error e => .error e
  | .ok (keyword, tokens) =>
    if keyword = str "HELP" then .ok (REPL.helpText m, m)
    else
      match m.assemblyLanguage.getInstruction (some keyword) with
      | .error e => .error e
      | .ok instruction =>
        match m.execute instruction tokens with
        | .error e => .error e
        | .ok m2 => .ok (m2.stateSummary, m2)

/-- `REPL.run(input)`: the try-block result, or the caught error
formatted by `errorMessage` with the machine unchanged. -/
def REPL.run (m : Machine) (input : Str) : Str × Machine :=
  match REPL.process m input with
  | .ok result => result
  | .error e => (REPL.errorMessage e.message, m)

/-- The statement `SET 1 10`, assembled against the machine's own
instruction set. -/
def sampleSetStatement : AssemblyStatement :=
  AssemblyStatement.make (some (AssemblyInstruction.setRegister Machine.NUM_REGISTERS))
    [1, 10] (str "SET 1 10") none

/-- The statement `ADD`. -/
def sampleAddStatement : AssemblyStatement :=
  AssemblyStatement.make (some AssemblyInstruction.addRegisters) [] (str "ADD") none

/-- A fresh 2-register machine with `[SET 1 10, ADD]` appended. -/
def c1Machine : Machine := Machine.new.append [sampleSetStatement, sampleAddStatement]

/-- C1: appending `[SET 1 10, ADD]` to a fresh 2-register machine and
calling `run()` once leaves the registers at `[10, 10]` and the machine
halting; a second `run()` changes nothing. -/
theorem machine_run_set_add_scenario :
    c1Machine.run.registers = [10, 10] ∧
    c1Machine.run.halting = true ∧
    c1Machine.run.run = c1Machine.run := by
  have e1 : c1Machine.run = c1Machine.step.run := Machine.run_step _ (by decide)
  have e2 : c1Machine.step.run = c1Machine.step.step.run := Machine.run_step _ (by decide)
  have e3 : c1Machine.step.step.run = c1Machine.step.step := Machine.run_halt _ (by decide)
  rw [e1, e2, e3]
  exact ⟨by decide, by decide, Machine.run_halt _ (by decide)⟩

/-- C2: the code disagrees with the claimed word range `[0, 65535]`:
`DataType.word.max` is `Machine.WORD_RANGE = 1 << 16 = 65536`, so
parsing `"65536"` succeeds instead of failing with `InputOutsideRange`.
(The source's own comment calls `WORD_RANGE` the "max unsigned value of
one word", and the REPL help text calls the machine 16-bit, so 65535 is
the documented intent and the code is off by one.) -/
theorem word_range_off_by_one_code_eval :
    Machine.WORD_RANGE = 65536 ∧
    DataType.word.min = 0 ∧
    DataType.word.max = Machine.WORD_RANGE ∧
    DataType.word.parse (str "65536") = .ok 65536 ∧
    ¬ (DataType.word.parse (str "65536") = .error .inputOutsideRange) := by
  refine ⟨by decide, rfl, rfl, by decide, by decide⟩

/-- C3 counterexample: `DataType.register` is a fixed data type, not a
family `register(n)`.  `AssemblyInstruction.setRegister(1)` still uses
the fixed register type, whose `max` is `1`, not `1 - 1 = 0`, and
parsing `"1"` succeeds instead of failing with `InputOutsideRange`. -/
theorem register_not_parameterized_cx :
    ((AssemblyInstruction.setRegister 1).operands.map (fun spec => spec.dataType)) =
      [DataType.register, DataType.word] ∧
    DataType.register.max = 1 ∧
    ¬ (DataType.register.max = 1 - 1) ∧
    DataType.register.parse (str "1") = .ok 1 ∧
    ¬ (DataType.register.parse (str "1") = .error .inputOutsideRange) := by
  refine ⟨by decide, by decide, by decide, by decide, by decide⟩

/-- C3 amended: `AssemblyInstruction.setRegister(n)` ignores `n`; its
register operand always uses the single fixed `DataType.register`, whose
bounds are `[0, Machine.NUM_REGISTERS - 1]`, and parsing the decimal
text of `NUM_REGISTERS` itself fails with `InputOutsideRange`. -/
theorem register_fixed_datatype_amended :
    ∀ n : Nat,
      ((AssemblyInstruction.setRegister n).operands.map (fun spec => spec.dataType)) =
        [DataType.register, DataType.word] ∧
      DataType.register.min = 0 ∧
      DataType.register.max = (Machine.NUM_REGISTERS : Int) - 1 ∧
      DataType.register.parse (str (toString Machine.NUM_REGISTERS)) =
        .error .inputOutsideRange := by
  intro n
  exact ⟨rfl, rfl, rfl, by decide⟩

/-- A successful `Machine.execute` only runs microcode: statements, pc
and language are untouched. -/
theorem Machine.execute_ok {m : Machine} {instruction : AssemblyInstruction}
    {input : List Str} {m2 : Machine} (h : m.execute instruction input = .ok m2) :
    m2.statements = m.statements ∧ m2.pc = m.pc ∧
      m2.assemblyLanguage = m.assemblyLanguage := by
  unfold Machine.execute AssemblyInstruction.execute at h
  split at h
  · cases h
  · cases hpo : parseOperands instruction.operands input with
    | error e => rw [hpo] at h; cases h
    | ok values =>
      rw [hpo] at h
      cases h
      exact ⟨Microcode.apply_statements _ _ _, Microcode.apply_pc _ _ _,
        Microcode.apply_language _ _ _⟩

/-- A successful `REPL.process` leaves statements and pc untouched. -/
theorem REPL.process_machine (m : Machine) (input : Str) (r : Str × Machine)
    (h : REPL.process m input = .ok r) :
    r.2.statements = m.statements ∧ r.2.pc = m.pc := by
  unfold REPL.process at h
  split at h
  · cases h
  · split at h
    · cases h
      exact ⟨rfl, rfl⟩
    · split at h
      · cases h
      · split at h
        · cases h
        · cases h
          rename_i hex
          exact ⟨(Machine.execute_ok hex).1, (Machine.execute_ok hex).2.1⟩

/-- C4 counterexample: `REPL.run` on a valid instruction line does not
append a statement — a fresh machine still holds zero statements after
`REPL.run("SET 0 5")`, not one; the summary string is still returned. -/
theorem repl_run_appends_no_statement_cx :
    (REPL.run Machine.new (str "SET 0 5")).2.instructionCount = 0 ∧
    ¬ ((REPL.run Machine.new (str "SET 0 5")).2.instructionCount =
        Machine.new.instructionCount + 1) ∧
    (REPL.run Machine.new (str "SET 0 5")).1 = str "[5] [0]" := by
  refine ⟨by decide, by decide, by decide⟩

/-- C4 amended: `REPL.run` never appends to the persistent machine's
statement list (and never moves `pc`); a line that resolves to a known
instruction with valid operands is executed directly against the
machine, returning the bracketed register summary of the updated
machine.  HELP, comment/no-op and failing lines likewise append
nothing. -/
theorem repl_run_direct_execute_amended :
    ∀ (m : Machine) (input : Str),
      ((REPL.run m input).2.statements = m.statements ∧
        (REPL.run m input).2.pc = m.pc) ∧
      (∀ (keyword : Str) (tokens : List Str) (instruction : AssemblyInstruction)
          (m2 : Machine),
        Program.tokenize input = .ok (keyword, tokens) →
        ¬ (keyword = str "HELP") →
        m.assemblyLanguage.getInstruction (some keyword) = .ok instruction →
        m.execute instruction tokens = .ok m2 →
        REPL.run m input = (m2.stateSummary, m2)) := by
  intro m input
  constructor
  · unfold REPL.run
    cases hp : REPL.process m input with
    | error e => exact ⟨rfl, rfl⟩
    | ok result => exact REPL.process_machine m input result hp
  · intro keyword tokens instruction m2 htok hkw hget hexec
    unfold REPL.run REPL.process
    rw [htok]
    simp only [if_neg hkw, hget, hexec]

/-- C4 witness: the amended theorem at the concrete line `SET 0 5` on a
fresh machine. -/
theorem repl_run_direct_execute_amended_witness :
    REPL.run Machine.new (str "SET 0 5") =
      (Machine.stateSummary { Machine.new with registers := [5, 0] },
        { Machine.new with registers := [5, 0] }) ∧
    (REPL.run Machine.new (str "SET 0 5")).2.statements = Machine.new.statements := by
  refine ⟨(repl_run_direct_execute_amended Machine.new (str "SET 0 5")).2
      (str "SET") [str "0", str "5"]
      (AssemblyInstruction.setRegister Machine.NUM_REGISTERS)
      { Machine.new with registers := [5, 0] }
      (by decide) (by decide) (by decide) (by decide),
    (repl_run_direct_execute_amended Machine.new (str "SET 0 5")).1.1⟩

/-- `Program.run` produces exactly one output entry. -/
theorem Program.runLines_length (lines : List Str) :
    ∀ m : Machine, (Program.runLines m lines).1.length = 1 := by
  induction lines with
  | nil => intro m; rfl
  | cons line rest ih =>
    intro m
    unfold Program.runLines
    cases hs : Program.stepLine m line with
    | error e => rfl
    | ok m2 => exact ih m2

/-- When every line executes, `Program.run` appends the single `HALT`
entry and ends on the machine the lines produced. -/
theorem Program.runLines_ok (lines : List Str) :
    ∀ (m mf : Machine), execLines m lines = .ok mf →
      Program.runLines m lines = ([str "HALT"], mf) := by
  induction lines with
  | nil => intro m mf h; cases h; rfl
  | cons line rest ih =>
    intro m mf h
    unfold execLines at h
    unfold Program.runLines
    cases hs : Program.stepLine m line with
    | error e => rw [hs] at h; cases h
    | ok m2 =>
      rw [hs] at h
      exact ih m2 mf h

/-- `Program.run` stops at the first failing line: the lines before it
run, the failure appends the single error entry, and the lines after it
never execute. -/
theorem Program.runLines_stops (pre : List Str) :
    ∀ (m m2 : Machine) (line : Str) (post : List Str) (e : ErrorKind),
      execLines m pre = .ok m2 →
      Program.stepLine m2 line = .error e →
      Program.runLines m (pre ++ line :: post) =
        ([(str "ERROR: ") ++ e.message], m2) := by
  induction pre with
  | nil =>
    intro m m2 line post e hok hline
    cases hok
    simp only [List.nil_append]
    unfold Program.runLines
    rw [hline]
  | cons p ps ih =>
    intro m m2 line post e hok hline
    unfold execLines at hok
    simp only [List.cons_append]
    unfold Program.runLines
    cases hs : Program.stepLine m p with
    | error e2 => rw [hs] at hok; cases hok
    | ok m1 =>
      rw [hs] at hok
      exact ih m1 m2 line post e hok hline

/-- C5 counterexample: the one-line program `ADD` processes one line and
produces an output log of length 1 (`["HALT"]`), not the claimed one
entry per processed line plus a terminal entry (which would be 2). -/
theorem program_output_single_entry_cx :
    (Program.create (str "ADD")).output = [str "HALT"] ∧
    ¬ ((Program.create (str "ADD")).output.length = 2) := by
  exact ⟨by decide, by decide⟩

/-- C5 amended: the output log always holds exactly one entry, the
terminal status line: when a line fails, execution stops immediately at
that line and the single entry is the error entry; when every line
succeeds, the single entry is `HALT`. -/
theorem program_output_terminal_only_amended :
    ∀ (m : Machine) (lines : List Str),
      (Program.runLines m lines).1.length = 1 ∧
      (∀ mf, execLines m lines = .ok mf →
        Program.runLines m lines = ([str "HALT"], mf)) ∧
      (∀ (pre : List Str) (line : Str) (post : List Str) (m2 : Machine) (e : ErrorKind),
        lines = pre ++ line :: post →
        execLines m pre = .ok m2 →
        Program.stepLine m2 line = .error e →
        Program.runLines m lines = ([(str "ERROR: ") ++ e.message], m2)) := by
  intro m lines
  refine ⟨Program.runLines_length lines m,
    fun mf h => Program.runLines_ok lines m mf h,
    fun pre line post m2 e hsplit h1 h2 => ?_⟩
  rw [hsplit]
  exact Program.runLines_stops pre m m2 line post e h1 h2

/-- C5 witness: the amended theorem at the concrete failing one-line
program `BOGUS`. -/
theorem program_output_terminal_only_amended_witness :
    Program.runLines Machine.new [str "BOGUS"] =
      ([(str "ERROR: ") ++ ErrorKind.message .unknownInstruction], Machine.new) := by
  exact (program_output_terminal_only_amended Machine.new [str "BOGUS"]).2.2
    [] (str "BOGUS") [] Machine.new .unknownInstruction rfl rfl (by decide)

/-- C6: whenever the try-block of `REPL.run` fails, the call returns the
`ERROR: <message>.` string (which starts with `ERROR:`) and the machine
is returned exactly as it was — registers, pc and statement list
untouched, because all validation happens before any microcode runs. -/
theorem repl_error_leaves_machine_unchanged :
    ∀ (m : Machine) (input : Str) (e : ErrorKind),
      REPL.process m input = .error e →
      REPL.run m input = (REPL.errorMessage e.message, m) ∧
      (str "ERROR:").isPrefixOf (REPL.run m input).1 = true ∧
      (REPL.run m input).2 = m := by
  intro m input e h
  have hrun : REPL.run m input = (REPL.errorMessage e.message, m) := by
    unfold REPL.run
    rw [h]
  refine ⟨hrun, ?_, by rw [hrun]⟩
  rw [hrun]
  rfl

/-- C6 witness: the theorem at the concrete unknown keyword `BOGUS` on a
fresh machine. -/
theorem repl_error_leaves_machine_unchanged_witness :
    REPL.run Machine.new (str "BOGUS") =
      (REPL.errorMessage (ErrorKind.message .unknownInstruction), Machine.new) ∧
    (str "ERROR:").isPrefixOf (REPL.run Machine.new (str "BOGUS")).1 = true := by
  have h := repl_error_leaves_machine_unchanged Machine.new (str "BOGUS")
    .unknownInstruction (by decide)
  exact ⟨h.1, h.2.1⟩

/-- C8: `getInstruction` resolves keywords by exact, case-sensitive
equality: any keyword matching no registered instruction — including
the machine language's own `"ADD"` queried as `"add"`, a null keyword,
and an empty keyword — fails with `UnknownInstruction`. -/
theorem getInstruction_case_sensitive_unknown :
    (∀ (lang : AssemblyLanguage) (keyword : Option Str),
      (∀ i ∈ lang.instructionSpecs, ¬ (some i.keyword = keyword)) →
      lang.getInstruction keyword = .error .unknownInstruction) ∧
    machineLanguage.getInstruction (some (str "add")) = .error .unknownInstruction ∧
    machineLanguage.getInstruction none = .error .unknownInstruction ∧
    machineLanguage.getInstruction (some []) = .error .unknownInstruction := by
  refine ⟨?_, by decide, by decide, by decide⟩
  intro lang keyword h
  unfold AssemblyLanguage.getInstruction
  have hfind : lang.instructionSpecs.find?
      (fun i => decide (some i.keyword = keyword)) = none := by
    rw [List.find?_eq_none]
    intro x hx
    simpa using h x hx
  rw [hfind]

/-- C8 witness: the theorem's universal part at the machine language and
the concrete unmatched keyword `BOGUS`. -/
theorem getInstruction_case_sensitive_unknown_witness :
    machineLanguage.getInstruction (some (str "BOGUS")) = .error .unknownInstruction :=
  getInstruction_case_sensitive_unknown.1 machineLanguage (some (str "BOGUS")) (by decide)

/-- The mutating machine operations named by claim C9. -/
inductive MachineOp where
  | append (stmts : List AssemblyStatement)
  | step
  | run
  | setPC (value : Int)

/-- Apply one machine operation. -/
def MachineOp.apply (m : Machine) : MachineOp → Machine
  | .append stmts => m.append stmts
  | .step => m.step
  | .run => m.run
  | .setPC value => m.setPC value

/-- Apply a sequence of machine operations. -/
def applyOps (m : Machine) (ops : List MachineOp) : Machine :=
  ops.foldl MachineOp.apply m

/-- C9: after any sequence of `append`/`step`/`run`/`setPC` operations
(indeed, in every machine state), `nextInstruction` is `none` exactly
when `halting` is true, and whenever it is `some s`, `s` is the
statement stored at index `pc`. -/
theorem nextInstruction_halting_consistency :
    ∀ (m0 : Machine) (ops : List MachineOp),
      ((applyOps m0 ops).nextInstruction = none ↔ (applyOps m0 ops).halting = true) ∧
      (∀ s, (applyOps m0 ops).nextInstruction = some s →
        (applyOps m0 ops).statements[(applyOps m0 ops).pc.toNat]? = some s) := by
  intro m0 ops
  generalize applyOps m0 ops = m
  have hnone : m.halting = true → m.nextInstruction = none := by
    intro h
    unfold Machine.nextInstruction
    rw [h]
    simp
  cases hh : m.halting with
  | false =>
    obtain ⟨s0, hs0⟩ := m.nextInstruction_isSome hh
    have hget : m.statements[m.pc.toNat]? = some s0 := by
      unfold Machine.nextInstruction at hs0
      rw [hh] at hs0
      simpa using hs0
    constructor
    · simp [hs0, hh]
    · intro s hs
      rw [hs0] at hs
      injection hs with h1
      rw [← h1]
      exact hget
  | true =>
    constructor
    · simp [hnone hh, hh]
    · intro s hs
      rw [hnone hh] at hs
      cases hs

/-- A no-op (comment-only) statement. -/
def sampleNoopStatement : AssemblyStatement :=
  AssemblyStatement.make none [] (str "# noop") (some (str "noop"))

/-- C9 witness: the theorem after appending one statement to a fresh
machine, whose `nextInstruction` is that statement. -/
theorem nextInstruction_halting_consistency_witness :
    (applyOps Machine.new [MachineOp.append [sampleNoopStatement]]).statements[
      (applyOps Machine.new [MachineOp.append [sampleNoopStatement]]).pc.toNat]? =
      some sampleNoopStatement :=
  (nextInstruction_halting_consistency Machine.new
      [MachineOp.append [sampleNoopStatement]]).2
    sampleNoopStatement (by decide)

/-- C10: when the lines before an empty line all execute, the `Program`
path aborts at the empty line: tokenizing the empty string throws
`Unknown instruction` before any keyword lookup, so empty lines (for
example one produced by a trailing newline) are not skipped, and the
output log entry is exactly `ERROR: Unknown instruction`. -/
theorem program_empty_line_aborts :
    ∀ (text : Str) (pre post : List Str) (m2 : Machine),
      jsSplitChar '\n' text = pre ++ ([] : Str) :: post →
      execLines Machine.new pre = .ok m2 →
      (Program.create text).output = [str "ERROR: Unknown instruction"] ∧
      (Program.create text).machine = m2 := by
  intro text pre post m2 hsplit hok
  have hline : Program.stepLine m2 [] = .error .unknownInstruction := rfl
  have hstop := Program.runLines_stops pre Machine.new m2 [] post .unknownInstruction hok hline
  constructor
  · show (Program.runLines Machine.new (jsSplitChar '\n' text)).1 = _
    rw [hsplit, hstop]
    rfl
  · show (Program.runLines Machine.new (jsSplitChar '\n' text)).2 = m2
    rw [hsplit, hstop]

/-- C10 witness: the theorem at the concrete program text
`"SET 1 10\n"`, whose trailing newline produces an empty second line. -/
theorem program_empty_line_aborts_witness :
    (Program.create (str "SET 1 10\n")).output = [str "ERROR: Unknown instruction"] ∧
    (Program.create (str "SET 1 10\n")).machine =
      { Machine.new with registers := [0, 10] } :=
  program_empty_line_aborts (str "SET 1 10\n") [str "SET 1 10"] []
    { Machine.new with registers := [0, 10] } (by decide) (by decide)

/-- The maximal runs of non-space characters of a string, in order: the
words obtained by splitting on the space character and collapsing runs
of spaces.  This is the comparison definition for the amended wording of
claim C7; the source-side tokenizer instead filters the result of
`split(" ")`. -/
def splitWords : Str → List Str
  | [] => []
  | c :: cs =>
    if c = ' ' then splitWords cs
    else
      match cs, splitWords cs with
      | [], _ => [[c]]
      | d :: _, rest =>
        if d = ' ' then [c] :: rest
        else
          match rest with
          | [] => [[c]]
          | t :: ts => (c :: t) :: ts

/-- `split` never returns an empty token list. -/
theorem jsSplitChar_ne_nil (sep : Char) (cs : Str) : jsSplitChar sep cs ≠ [] := by
  cases cs with
  | nil => simp [jsSplitChar]
  | cons c cs =>
    unfold jsSplitChar
    by_cases h : c = sep
    · simp [h]
    · simp only [if_neg h]
      cases hx : jsSplitChar sep cs <;> simp

/-- Splitting on single spaces and discarding the empty fragments
yields exactly the maximal non-space runs. -/
theorem filter_jsSplitChar_eq_splitWords (cs : Str) :
    (jsSplitChar ' ' cs).filter (fun item => 0 < item.length) = splitWords cs := by
  induction cs with
  | nil => rfl
  | cons c cs ih =>
    by_cases hc : c = ' '
    · subst hc
      unfold jsSplitChar splitWords
      simp only [if_pos rfl]
      simpa using ih
    · obtain ⟨t, ts, hts⟩ : ∃ t ts, jsSplitChar ' ' cs = t :: ts := by
        cases hx : jsSplitChar ' ' cs with
        | nil => exact absurd hx (jsSplitChar_ne_nil ' ' cs)
        | cons t ts => exact ⟨t, ts, rfl⟩
      have hsplit : jsSplitChar ' ' (c :: cs) = (c :: t) :: ts := by
        unfold jsSplitChar
        rw [if_neg hc, hts]
      rw [hsplit]
      have hfilter : ((c :: t) :: ts).filter (fun item => 0 < item.length) =
          (c :: t) :: ts.filter (fun item => 0 < item.length) := by
        simp
      rw [hfilter]
      cases cs with
      | nil =>
        cases hts
        unfold splitWords
        rw [if_neg hc]
        rfl
      | cons d cs2 =>
        by_cases hd : d = ' '
        · subst hd
          have ht : t = [] ∧ ts = jsSplitChar ' ' cs2 := by
            unfold jsSplitChar at hts
            rw [if_pos rfl] at hts
            exact ⟨(List.cons.injEq _ _ _ _ ▸ hts).1.symm, (List.cons.injEq _ _ _ _ ▸ hts).2.symm⟩
          obtain ⟨ht1, ht2⟩ := ht
          subst ht1
          subst ht2
          unfold splitWords
          rw [if_neg hc]
          simp only [if_pos rfl]
          have ihx : (jsSplitChar ' ' cs2).filter (fun item => 0 < item.length) =
              splitWords (' ' :: cs2) := by
            unfold jsSplitChar at ih
            rw [if_pos rfl] at ih
            simpa using ih
          rw [ihx]
          unfold splitWords
          simp
        · obtain ⟨t2, ts2, hts2⟩ : ∃ t2 ts2, jsSplitChar ' ' cs2 = t2 :: ts2 := by
            cases hx : jsSplitChar ' ' cs2 with
            | nil => exact absurd hx (jsSplitChar_ne_nil ' ' cs2)
            | cons a b => exact ⟨a, b, rfl⟩
          have hdd : jsSplitChar ' ' (d :: cs2) = (d :: t2) :: ts2 := by
            unfold jsSplitChar
            rw [if_neg hd, hts2]
          have ht : t = d :: t2 ∧ ts = ts2 := by
            rw [hdd] at hts
            exact ⟨(List.cons.injEq _ _ _ _ ▸ hts).1.symm, (List.cons.injEq _ _ _ _ ▸ hts).2.symm⟩
          obtain ⟨ht1, ht2⟩ := ht
          subst ht1
          subst ht2
          have ihx : (d :: t2) :: ts.filter (fun item => 0 < item.length) =
              splitWords (d :: cs2) := by
            rw [hdd] at ih
            simpa using ih
          show (c :: d :: t2) :: ts.filter (fun item => 0 < item.length) =
            splitWords (c :: d :: cs2)
          unfold splitWords
          rw [if_neg hc]
          simp only [if_neg hd]
          rw [← ihx]

/-- Comparison definition for amended claim C7, following its wording:
take the text before the first `'#'`, trim it, and split it into the
maximal space-separated words; the first word uppercased is the keyword
(none if no words), the remaining words verbatim are the operands, and
the trimmed text after the `'#'` is the comment (none if no `'#'`). -/
def AssemblySyntax.tokenizeLineSpec (text : Str) : TokenizedLine :=
  let comment : Option Str :=
    match text.dropWhile (fun c => c ≠ '#') with
    | [] => none
    | _ :: afterHash => some (jsTrim afterHash)
  let tokens := splitWords (jsTrim (text.takeWhile (fun c => c ≠ '#')))
  { keyword := (tokens.head?).map jsToUpper,
    operands := tokens.tail,
    comment := comment }

/-- C7 counterexample: `tokenizeLine` splits only on the space
character, not on whitespace: on `"set\t1"` the tab does not separate
tokens, so the keyword is the single uppercased token `"SET\t1"` with no
operands — not keyword `"SET"` with operands `["1"]` as splitting on
whitespace would give. -/
theorem tokenizeLine_tab_not_split_cx :
    AssemblySyntax.tokenizeLine (str "set\t1") =
      { keyword := some ('S' :: 'E' :: 'T' :: '\t' :: '1' :: []), operands := [],
        comment := none } ∧
    ¬ (AssemblySyntax.tokenizeLine (str "set\t1") =
      { keyword := some (str "SET"), operands := [str "1"], comment := none }) := by
  exact ⟨by decide, by decide⟩

/-- C7 amended: for every text line, `tokenizeLine` takes the text
before the first `'#'`, trims it, splits it on the space character
(collapsing runs of spaces; other whitespace such as tabs does not
separate tokens), returns the first token uppercased as the keyword
(none if there are no tokens), the remaining tokens verbatim as
operands, and the trimmed text after the `'#'` as the comment (none if
no `'#'`); in particular the two concrete examples of the claim hold. -/
theorem tokenizeLine_space_split_amended :
    (∀ text : Str, AssemblySyntax.tokenizeLine text = AssemblySyntax.tokenizeLineSpec text) ∧
    AssemblySyntax.tokenizeLine (str "set 1 2 # c") =
      { keyword := some (str "SET"), operands := [str "1", str "2"],
        comment := some (str "c") } ∧
    AssemblySyntax.tokenizeLine (str "  # a  b  ") =
      { keyword := none, operands := [], comment := some (str "a  b") } := by
  refine ⟨?_, by decide, by decide⟩
  intro text
  simp only [AssemblySyntax.tokenizeLine, AssemblySyntax.tokenizeLineSpec,
    filter_jsSplitChar_eq_splitWords]
